import Mathlib

/-!
# Verification development for `main.go`

A shallow embedding of the event ingestion service: the normaliser
(`convertJSON`, `extractTraitsAndAttributes`), the delivery client
(`sendToWebhook`), the `POST /submit` handler and the worker loop, together
with the Go channel they share.

Conventions of the embedding.

* A Go `interface{}` holding a decoded JSON document is a `JVal`.  The payload
  of a number is never inspected by the program, so it is kept as an integer.
* A Go `map[string]interface{}` is an association list read by first match.
  `GoMap.get` is the comma-ok lookup `v, ok := m[k]`, `GoMap.index` is the plain
  lookup `m[k]` (the nil interface, here `JVal.null`, when the key is absent),
  and `GoMap.set` is the assignment `m[k] = v`.
* `fmt.Sprintf("%s%d", p, i)` is `sprintf p i`.  The loop counter is a Go `int`;
  it never leaves the range of a 64-bit integer because the loop stops after at
  most one more iteration than the map has keys.
* A run-time panic (a failed type assertion) is the outcome `panicked`.
* The unbounded loop `for i := 1; ; i++` is unrolled under a fuel bound; the
  outcome `outOfFuel` marks an unrolling that was cut short.
-/

namespace GolangTest

/-! ## Data model -/

/-- A decoded JSON document, as stored in a Go `interface{}`. -/
inductive JVal where
  | null : JVal
  | bool (b : Bool) : JVal
  | num (n : Int) : JVal
  | str (s : String) : JVal
  | arr (xs : List JVal) : JVal
  | obj (kvs : List (String × JVal)) : JVal

/-- A Go `map[string]interface{}`. -/
abbrev GoMap := List (String × JVal)

/-- The type `Request` of the source (line 15). -/
abbrev Request := GoMap

/-- The type `ConvertedRequest` of the source (line 18). -/
abbrev ConvertedRequest := GoMap

/-- The comma-ok lookup `v, ok := m[k]`. -/
def GoMap.get (m : GoMap) (k : String) : Option JVal :=
  List.lookup k m

/-- The plain lookup `m[k]`, giving the nil interface for an absent key. -/
def GoMap.index (m : GoMap) (k : String) : JVal :=
  (GoMap.get m k).getD JVal.null

/-- The assignment `m[k] = v`. -/
def GoMap.set : GoMap → String → JVal → GoMap
  | [], k, v => [(k, v)]
  | (k', v') :: rest, k, v =>
    if k = k' then (k, v) :: rest else (k', v') :: GoMap.set rest k v

/-- The keys held by a map. -/
def GoMap.keys (m : GoMap) : List String :=
  m.map Prod.fst

/-- The formatting `fmt.Sprintf("%s%d", p, i)` for a non-negative `i`. -/
def sprintf (p : String) (i : Nat) : String :=
  p ++ Nat.repr i

/-- How a call ends: it returns, it panics, or its unrolling ran out of fuel. -/
inductive Outcome (α : Type) where
  | returned (a : α) : Outcome α
  | panicked : Outcome α
  | outOfFuel : Outcome α

/-! ## The normaliser -/

/-- The entry `{"value": inputMap[valuePrefix i], "type": inputMap[typePrefix i]}`
built at lines 99-102. -/
def entryAt (inputMap : Request) (valuePrefix typePrefix : String) (i : Nat) : JVal :=
  JVal.obj [("value", GoMap.index inputMap (sprintf valuePrefix i)),
            ("type", GoMap.index inputMap (sprintf typePrefix i))]

/-- The loop of `extractTraitsAndAttributes` (lines 92-106), started at index `i`
with the given fuel.  The first component counts the executions of the key lookup
of line 94; the second is the outcome, carrying the updated output map. -/
def extractLoop (inputMap : Request) (outputMapKey keyPrefix valuePrefix typePrefix : String) :
    Nat → Nat → ConvertedRequest → Nat × Outcome ConvertedRequest
  | 0, _, _ => (0, Outcome.outOfFuel)
  | fuel + 1, i, outputMap =>
    match GoMap.get inputMap (sprintf keyPrefix i) with
    | some val =>
      match val with
      | JVal.str attributeKey =>
        match GoMap.index outputMap outputMapKey with
        | JVal.obj inner =>
          let r := extractLoop inputMap outputMapKey keyPrefix valuePrefix typePrefix fuel (i + 1)
            (GoMap.set outputMap outputMapKey
              (JVal.obj (GoMap.set inner attributeKey (entryAt inputMap valuePrefix typePrefix i))))
          (r.1 + 1, r.2)
        | _ => (1, Outcome.panicked)
      | _ => (1, Outcome.panicked)
    | none => (1, Outcome.returned outputMap)

/-- The function `extractTraitsAndAttributes` (lines 91-107), with the number of key
lookups it performed. -/
def extractTraitsAndAttributes (fuel : Nat) (inputMap : Request) (outputMap : ConvertedRequest)
    (outputMapKey keyPrefix valuePrefix typePrefix : String) : Nat × Outcome ConvertedRequest :=
  extractLoop inputMap outputMapKey keyPrefix valuePrefix typePrefix fuel 1 outputMap

/-- The map literal of lines 71-83. -/
def initialOutput (inputMap : Request) : ConvertedRequest :=
  [("event", GoMap.index inputMap "ev"),
   ("event_type", GoMap.index inputMap "et"),
   ("app_id", GoMap.index inputMap "id"),
   ("user_id", GoMap.index inputMap "uid"),
   ("message_id", GoMap.index inputMap "mid"),
   ("page_title", GoMap.index inputMap "t"),
   ("page_url", GoMap.index inputMap "p"),
   ("browser_language", GoMap.index inputMap "l"),
   ("screen_size", GoMap.index inputMap "sc"),
   ("attributes", JVal.obj []),
   ("traits", JVal.obj [])]

/-- The function `convertJSON` (lines 70-89) with both loops unrolled under `fuel`. -/
def convertJSONFuel (fuel : Nat) (inputMap : Request) : Outcome ConvertedRequest :=
  match (extractTraitsAndAttributes fuel inputMap (initialOutput inputMap)
      "attributes" "atrk" "atrv" "atrt").2 with
  | Outcome.returned outputMap =>
    (extractTraitsAndAttributes fuel inputMap outputMap "traits" "uatrk" "uatrv" "uatrt").2
  | Outcome.panicked => Outcome.panicked
  | Outcome.outOfFuel => Outcome.outOfFuel

/-- The function `convertJSON` (lines 70-89).  The fuel is one more than the number of
entries of the input, which is enough for both loops (`convertJSONFuel_stable`). -/
def convertJSON (inputMap : Request) : Outcome ConvertedRequest :=
  convertJSONFuel (inputMap.length + 1) inputMap

/-- The number of distinct keys of a map, Go's `len(m)`. -/
def GoMap.size (m : GoMap) : Nat :=
  (GoMap.keys m).dedup.length

/-! ## The dispatch queue: a buffered Go channel -/

/-- A buffered channel of converted requests: the queued values in order of arrival, the
capacity given to `make`, and whether `close` has been called. -/
structure Chan where
  buf : List ConvertedRequest
  cap : Nat
  closed : Bool

/-- The call `make(chan ConvertedRequest, cap)`. -/
def makeChan (cap : Nat) : Chan :=
  { buf := [], cap := cap, closed := false }

/-- What a send `ch <- v` does in the current state of the channel. -/
inductive SendResult where
  | sent (ch : Chan) : SendResult
  | blocked : SendResult
  | panicked : SendResult

/-- The send `ch <- v`: a panic on a closed channel, an append while the buffer has room,
and otherwise the sender is parked and the channel is left as it is. -/
def Chan.send (ch : Chan) (v : ConvertedRequest) : SendResult :=
  if ch.closed then SendResult.panicked
  else if ch.buf.length < ch.cap then SendResult.sent { ch with buf := ch.buf ++ [v] }
  else SendResult.blocked

/-- What a receive `<-ch` does in the current state of the channel. -/
inductive RecvResult where
  | received (v : ConvertedRequest) (ch : Chan) : RecvResult
  | blocked : RecvResult

/-- The receive `<-ch`: the oldest queued value; on an empty channel the zero value (the nil
map, which reads as the empty map) at once when the channel is closed, and otherwise the
receiver is parked. -/
def Chan.recv (ch : Chan) : RecvResult :=
  match ch.buf with
  | v :: rest => RecvResult.received v { ch with buf := rest }
  | [] => if ch.closed then RecvResult.received [] ch else RecvResult.blocked

/-! ## The delivery client -/

/-- The result of one `http.Post`: an error, or a response with its status code. -/
inductive PostResult where
  | err : PostResult
  | resp (status : Nat) : PostResult

/-- How `sendToWebhook` ended: at the return of line 115, at the return of line 121, or at the
end of the function after printing the response. -/
inductive Delivery where
  | marshalError : Delivery
  | postError : Delivery
  | sent (status : Nat) : Delivery

/-- The part of the outside world `sendToWebhook` acts on: the number of POST requests issued
so far and the number of seconds slept. -/
structure World where
  attempts : Nat
  slept : Nat

/-- The function `sendToWebhook` (lines 109-127).  The library calls are parameters:
`marshal` is `json.Marshal` and `post k body` is the result of the `k`-th `http.Post` issued
by the process when it carries `body`. -/
def sendToWebhook (marshal : ConvertedRequest → Option String)
    (post : Nat → String → PostResult) (req : ConvertedRequest) (w : World) :
    Delivery × World :=
  match marshal req with
  | none => (Delivery.marshalError, w)
  | some jsonReq =>
    match post w.attempts jsonReq with
    | PostResult.err => (Delivery.postError, { w with attempts := w.attempts + 1 })
    | PostResult.resp status =>
      (Delivery.sent status, { attempts := w.attempts + 1, slept := w.slept + 1 })

/-! ## The worker -/

/-- Where a worker stands: at the receive of line 63, at the call of line 65 with the
received request, or past the end of the function (where `wg.Done` would run). -/
inductive WorkerPc where
  | receiving : WorkerPc
  | delivering (req : ConvertedRequest) : WorkerPc
  | exited : WorkerPc

/-- A worker together with what it shares: its position, the channel, the outside world and
the arguments of the calls of `sendToWebhook` it has made, oldest first. -/
structure WorkerState where
  pc : WorkerPc
  ch : Chan
  world : World
  calls : List ConvertedRequest

/-- One step of `worker` (lines 58-68); `none` when the worker cannot move.  The `select`
has a single case and the enclosing `for` has neither condition nor `break` nor `return`. -/
def workerStep (marshal : ConvertedRequest → Option String)
    (post : Nat → String → PostResult) (s : WorkerState) : Option WorkerState :=
  match s.pc with
  | WorkerPc.receiving =>
    match Chan.recv s.ch with
    | RecvResult.received req ch => some { s with pc := WorkerPc.delivering req, ch := ch }
    | RecvResult.blocked => none
  | WorkerPc.delivering req =>
    some { s with pc := WorkerPc.receiving,
                  world := (sendToWebhook marshal post req s.world).2,
                  calls := s.calls ++ [req] }
  | WorkerPc.exited => none

/-- Up to `n` steps of a worker, stopping early where it cannot move. -/
def workerRun (marshal : ConvertedRequest → Option String)
    (post : Nat → String → PostResult) : Nat → WorkerState → WorkerState
  | 0, s => s
  | n + 1, s =>
    match workerStep marshal post s with
    | some s' => workerRun marshal post n s'
    | none => s

/-! ## The `POST /submit` handler -/

/-- An HTTP response written by the handler. -/
structure Response where
  status : Nat
  body : JVal

/-- How a run of the handler stands: it wrote a response and returned, it is parked at the
send of line 45, a panic left it, or the unrolling of the normaliser was cut short. -/
inductive HandlerStatus where
  | responded (r : Response) : HandlerStatus
  | blockedOnSend (convertedReq : ConvertedRequest) : HandlerStatus
  | panicked : HandlerStatus
  | outOfFuel : HandlerStatus

/-- The handler of lines 36-47 run against the channel `ch`.  The argument is the result of
`c.BindJSON(&req)`: `none` for an error, `some req` for a decoded body.  The result is the
channel afterwards and how the handler stands. -/
def submitHandler (bound : Option Request) (ch : Chan) : Chan × HandlerStatus :=
  match bound with
  | none =>
    (ch, HandlerStatus.responded
      { status := 400, body := JVal.obj [("error", JVal.str "Invalid request format")] })
  | some req =>
    match convertJSON req with
    | Outcome.returned convertedReq =>
      match Chan.send ch convertedReq with
      | SendResult.sent ch' =>
        (ch', HandlerStatus.responded
          { status := 200, body := JVal.obj [("converted_request", JVal.obj convertedReq)] })
      | SendResult.blocked => (ch, HandlerStatus.blockedOnSend convertedReq)
      | SendResult.panicked => (ch, HandlerStatus.panicked)
    | Outcome.panicked => (ch, HandlerStatus.panicked)
    | Outcome.outOfFuel => (ch, HandlerStatus.outOfFuel)

/-! ## The pipeline set up by `main` -/

/-- The shared state of the process: the channel and the counter of the wait group. -/
structure Pipeline where
  ch : Chan
  wg : Nat

/-- The state after lines 22-31: a channel of capacity 5 and five workers registered. -/
def mainInit : Pipeline :=
  { ch := makeChan 5, wg := 5 }

/-- The moves on the shared state: a handler reaches its send with a converted request, a
worker reaches its receive, and the goroutine of lines 50-53 tries to pass `wg.Wait()`.  No
move lowers the counter, because `wg.Done` is deferred to the return of `worker`. -/
inductive Action where
  | enqueue (v : ConvertedRequest) : Action
  | dequeue : Action
  | closeWhenDone : Action

/-- The effect of one move; a move that cannot proceed leaves the state as it is. -/
def pipelineStep (s : Pipeline) : Action → Pipeline
  | Action.enqueue v =>
    match Chan.send s.ch v with
    | SendResult.sent ch' => { s with ch := ch' }
    | _ => s
  | Action.dequeue =>
    match Chan.recv s.ch with
    | RecvResult.received _ ch' => { s with ch := ch' }
    | RecvResult.blocked => s
  | Action.closeWhenDone =>
    if s.wg = 0 then { s with ch := { s.ch with closed := true } } else s

/-- The state after a sequence of moves, in any interleaving. -/
def pipelineRun (s : Pipeline) (acts : List Action) : Pipeline :=
  acts.foldl pipelineStep s

/-- The fixed fields of the map literal of lines 72-80: each canonical name with the short
key it is read from. -/
def fixedFields : List (String × String) :=
  [("event", "ev"), ("event_type", "et"), ("app_id", "id"), ("user_id", "uid"),
   ("message_id", "mid"), ("page_title", "t"), ("page_url", "p"),
   ("browser_language", "l"), ("screen_size", "sc")]

/-! ## Specification vocabulary -/

/-- The keys `keyPrefix i`, ..., `keyPrefix (i + k - 1)` are all present in `raw` with string
values. -/
def StringRun (raw : Request) (keyPrefix : String) (i k : Nat) : Prop :=
  ∀ j, i ≤ j → j < i + k → ∃ s, GoMap.get raw (sprintf keyPrefix j) = some (JVal.str s)

/-- The type assertion `val.(string)` of line 95 is reached with a value that is not a
string: some index `i ≥ 1` has `keyPrefix 1`, ..., `keyPrefix i` all present and the value
under `keyPrefix i` is not a string. -/
def AssertionFails (raw : Request) (keyPrefix : String) : Prop :=
  ∃ i, 1 ≤ i ∧ (∀ j, 1 ≤ j → j ≤ i → GoMap.get raw (sprintf keyPrefix j) ≠ none) ∧
    ¬ ∃ s, GoMap.get raw (sprintf keyPrefix i) = some (JVal.str s)

/-- Whether an outcome is a panic. -/
def Outcome.isPanicked {α : Type} : Outcome α → Bool
  | Outcome.panicked => true
  | _ => false

/-- An executable test for `AssertionFails`: run the loop for the prefix on a one-entry
output map and see whether it panics (`assertionFailsB_iff`). -/
def assertionFailsB (raw : Request) (keyPrefix : String) : Bool :=
  Outcome.isPanicked
    (extractTraitsAndAttributes (raw.length + 1) raw [("", JVal.obj [])] "" keyPrefix "" "").2

/-- The name extracted at index `i`: the string under `keyPrefix i`. -/
def nameAt (raw : Request) (keyPrefix : String) (i : Nat) : String :=
  match GoMap.get raw (sprintf keyPrefix i) with
  | some (JVal.str s) => s
  | _ => ""

/-- The inner map after the assignments of the indices `i`, ..., `i + k - 1`, in order. -/
def applyEntries (raw : Request) (keyPrefix valuePrefix typePrefix : String) :
    Nat → Nat → GoMap → GoMap
  | _, 0, inner => inner
  | i, k + 1, inner =>
    applyEntries raw keyPrefix valuePrefix typePrefix (i + 1) k
      (GoMap.set inner (nameAt raw keyPrefix i) (entryAt raw valuePrefix typePrefix i))

/-! ## Auxiliary definitions of the proofs and sample inputs -/

/-- The number written by a list of decimal digit characters. -/
def digitsValue (cs : List Char) : Nat :=
  cs.foldl (fun a c => 10 * a + (c.toNat - 48)) 0

/-- The output map after a run of `a` attribute indices and a run of `t` trait indices. -/
def finalOutput (raw : Request) (a t : Nat) : ConvertedRequest :=
  GoMap.set
    (GoMap.set (initialOutput raw) "attributes"
      (JVal.obj (applyEntries raw "atrk" "atrv" "atrt" 1 a [])))
    "traits" (JVal.obj (applyEntries raw "uatrk" "uatrv" "uatrt" 1 t []))

/-- A raw event with the indices 1 and 3 of the attribute keys and no index 2. -/
def gapEvent : Request :=
  [("atrk1", JVal.str "color"), ("atrv1", JVal.str "red"), ("atrt1", JVal.str "string"),
   ("atrk3", JVal.str "size"), ("atrv3", JVal.num 3), ("atrt3", JVal.str "number")]

/-- The raw event of the worked example of the specification. -/
def clickEvent : Request :=
  [("ev", JVal.str "click"), ("uid", JVal.str "u1"), ("atrk1", JVal.str "color"),
   ("atrv1", JVal.str "red"), ("atrt1", JVal.str "string")]

/-- What holds of the shared state throughout: the channel made by `main` keeps capacity 5,
never holds more than 5 events, is never closed, and the counter of the wait group stays 5. -/
def PipelineInv (s : Pipeline) : Prop :=
  s.ch.buf.length ≤ 5 ∧ s.ch.cap = 5 ∧ s.ch.closed = false ∧ s.wg = 5

/-- A network on which the first POST of the process fails and every later one is
answered with status 200. -/
def flakyPost : Nat → String → PostResult :=
  fun k _ => if k = 0 then PostResult.err else PostResult.resp 200

/-- A serialiser that always succeeds. -/
def constMarshal : ConvertedRequest → Option String :=
  fun _ => some "payload"

/-! ## Maps -/

theorem GoMap.get_nil (k : String) : GoMap.get [] k = none := rfl

theorem GoMap.get_cons (a : String) (b : JVal) (tl : GoMap) (k : String) :
    GoMap.get ((a, b) :: tl) k = if k = a then some b else GoMap.get tl k := by
  unfold GoMap.get
  by_cases h : k = a
  · subst h
    simp [List.lookup]
  · have hb : (k == a) = false := by simpa using h
    simp [List.lookup, hb, h]

theorem GoMap.get_set (m : GoMap) (k k' : String) (v : JVal) :
    GoMap.get (GoMap.set m k v) k' = if k' = k then some v else GoMap.get m k' := by
  induction m with
  | nil => simp [GoMap.set, GoMap.get_cons, GoMap.get_nil]
  | cons hd tl ih =>
    obtain ⟨a, b⟩ := hd
    by_cases hk : k = a
    · subst hk
      simp only [GoMap.set, if_true, GoMap.get_cons]
      by_cases h : k' = k
      · simp [h]
      · simp [h]
    · simp only [GoMap.set, hk, if_false, GoMap.get_cons, ih]
      by_cases h2 : k' = a
      · subst h2
        have h3 : ¬ k' = k := fun h => hk h.symm
        simp [h3]
      · simp [h2]

theorem GoMap.get_set_self (m : GoMap) (k : String) (v : JVal) :
    GoMap.get (GoMap.set m k v) k = some v := by
  simp [GoMap.get_set]

theorem GoMap.get_set_ne (m : GoMap) (k k' : String) (v : JVal) (h : k' ≠ k) :
    GoMap.get (GoMap.set m k v) k' = GoMap.get m k' := by
  simp [GoMap.get_set, h]

theorem GoMap.set_set (m : GoMap) (k : String) (v w : JVal) :
    GoMap.set (GoMap.set m k v) k w = GoMap.set m k w := by
  induction m with
  | nil => simp [GoMap.set]
  | cons hd tl ih =>
    obtain ⟨a, b⟩ := hd
    by_cases hk : k = a
    · simp [GoMap.set, hk]
    · simp [GoMap.set, hk, ih]

theorem GoMap.set_of_get (m : GoMap) (k : String) (v : JVal) (h : GoMap.get m k = some v) :
    GoMap.set m k v = m := by
  induction m with
  | nil => simp [GoMap.get] at h
  | cons hd tl ih =>
    obtain ⟨a, b⟩ := hd
    unfold GoMap.get at ih h
    by_cases hk : k = a
    · subst hk
      simp [List.lookup] at h
      simp [GoMap.set, h]
    · have hb : (k == a) = false := by simpa using hk
      simp only [List.lookup, hb] at h
      simp [GoMap.set, hk, ih h]

theorem GoMap.index_of_get (m : GoMap) (k : String) (v : JVal) (h : GoMap.get m k = some v) :
    GoMap.index m k = v := by
  simp [GoMap.index, h]

theorem GoMap.mem_keys_iff (m : GoMap) (k : String) :
    k ∈ GoMap.keys m ↔ GoMap.get m k ≠ none := by
  induction m with
  | nil => simp [GoMap.keys, GoMap.get]
  | cons hd tl ih =>
    obtain ⟨a, b⟩ := hd
    unfold GoMap.get GoMap.keys at ih ⊢
    by_cases hk : k = a
    · subst hk
      simp [List.lookup]
    · have hb : (k == a) = false := by simpa using hk
      simp only [List.map_cons, List.mem_cons, hk, false_or, List.lookup, hb]
      exact ih

theorem GoMap.size_le_length (m : GoMap) : GoMap.size m ≤ m.length := by
  unfold GoMap.size GoMap.keys
  calc (List.map Prod.fst m).dedup.length ≤ (List.map Prod.fst m).length :=
        (List.dedup_sublist _).length_le
    _ = m.length := by simp

/-! ## Formatted keys are pairwise distinct -/

theorem digitsValue_snoc (cs : List Char) (c : Char) :
    digitsValue (cs ++ [c]) = 10 * digitsValue cs + (c.toNat - 48) := by
  simp [digitsValue, List.foldl_append]

theorem digitChar_value (k : Nat) (h : k < 10) : (Nat.digitChar k).toNat - 48 = k := by
  interval_cases k <;> rfl

theorem toDigitsCore_value : ∀ (fuel n : Nat) (ds : List Char), n < fuel →
    ∃ pre, Nat.toDigitsCore 10 fuel n ds = pre ++ ds ∧ digitsValue pre = n := by
  intro fuel
  induction fuel with
  | zero => intro n ds h; omega
  | succ f ih =>
    intro n ds h
    unfold Nat.toDigitsCore
    by_cases h0 : n / 10 = 0
    · refine ⟨[Nat.digitChar (n % 10)], by simp [h0], ?_⟩
      have hlt : n % 10 < 10 := Nat.mod_lt _ (by decide)
      have hn : n % 10 = n := by omega
      have hv := digitChar_value (n % 10) hlt
      simp only [digitsValue, List.foldl_cons, List.foldl_nil, Nat.mul_zero, Nat.zero_add]
      rw [hv, hn]
    · obtain ⟨pre, hp, hv⟩ := ih (n / 10) (Nat.digitChar (n % 10) :: ds) (by omega)
      refine ⟨pre ++ [Nat.digitChar (n % 10)], by simp [h0, hp], ?_⟩
      have hlt : n % 10 < 10 := Nat.mod_lt _ (by decide)
      rw [digitsValue_snoc, hv, digitChar_value (n % 10) hlt]
      omega

theorem digitsValue_toDigits (n : Nat) : digitsValue (Nat.toDigits 10 n) = n := by
  obtain ⟨pre, hp, hv⟩ := toDigitsCore_value (n + 1) n [] (by omega)
  unfold Nat.toDigits
  rw [hp, List.append_nil, hv]

theorem repr_injective (i j : Nat) (h : Nat.repr i = Nat.repr j) : i = j := by
  have hd : Nat.toDigits 10 i = Nat.toDigits 10 j := by
    have := congrArg String.data h
    simpa [Nat.repr, List.asString] using this
  have := congrArg digitsValue hd
  simpa [digitsValue_toDigits] using this

theorem sprintf_injective (p : String) (i j : Nat) (h : sprintf p i = sprintf p j) : i = j := by
  apply repr_injective
  have hd := congrArg String.data h
  simp only [sprintf, String.data_append] at hd
  exact String.ext (List.append_cancel_left hd)

/-- Pigeonhole: among the keys `p 1`, ..., `p (size + 1)` one is absent from the map. -/
theorem exists_absent_key (raw : Request) (p : String) :
    ∃ g, 1 ≤ g ∧ g ≤ GoMap.size raw + 1 ∧ GoMap.get raw (sprintf p g) = none := by
  by_contra hcon
  push_neg at hcon
  have hsub : (Finset.Icc 1 (GoMap.size raw + 1)).image (sprintf p) ⊆
      (GoMap.keys raw).toFinset := by
    intro k hk
    obtain ⟨g, hg, rfl⟩ := Finset.mem_image.mp hk
    rw [Finset.mem_Icc] at hg
    rw [List.mem_toFinset, GoMap.mem_keys_iff]
    exact hcon g hg.1 hg.2
  have hcard := Finset.card_le_card hsub
  rw [Finset.card_image_of_injective _ (fun i j h => sprintf_injective p i j h),
    Nat.card_Icc, List.card_toFinset] at hcard
  unfold GoMap.size at hcard
  omega

/-! ## The extraction loop -/

theorem extractLoop_absent (raw : Request) (K kp vp tp : String) (fuel i : Nat)
    (out : ConvertedRequest) (h : GoMap.get raw (sprintf kp i) = none) :
    extractLoop raw K kp vp tp (fuel + 1) i out = (1, Outcome.returned out) := by
  simp [extractLoop, h]

theorem extractLoop_notString (raw : Request) (K kp vp tp : String) (fuel i : Nat)
    (out : ConvertedRequest) (v : JVal) (h : GoMap.get raw (sprintf kp i) = some v)
    (hv : ¬ ∃ s, v = JVal.str s) :
    extractLoop raw K kp vp tp (fuel + 1) i out = (1, Outcome.panicked) := by
  cases v with
  | str s => exact absurd ⟨s, rfl⟩ hv
  | null => simp [extractLoop, h]
  | bool b => simp [extractLoop, h]
  | num n => simp [extractLoop, h]
  | arr xs => simp [extractLoop, h]
  | obj kvs => simp [extractLoop, h]

theorem extractLoop_string (raw : Request) (K kp vp tp : String) (fuel i : Nat)
    (out : ConvertedRequest) (s : String) (inner : GoMap)
    (h : GoMap.get raw (sprintf kp i) = some (JVal.str s))
    (ho : GoMap.index out K = JVal.obj inner) :
    extractLoop raw K kp vp tp (fuel + 1) i out =
      ((extractLoop raw K kp vp tp fuel (i + 1)
          (GoMap.set out K (JVal.obj (GoMap.set inner s (entryAt raw vp tp i))))).1 + 1,
       (extractLoop raw K kp vp tp fuel (i + 1)
          (GoMap.set out K (JVal.obj (GoMap.set inner s (entryAt raw vp tp i))))).2) := by
  simp [extractLoop, h, ho]

theorem extractLoop_notMap (raw : Request) (K kp vp tp : String) (fuel i : Nat)
    (out : ConvertedRequest) (s : String)
    (h : GoMap.get raw (sprintf kp i) = some (JVal.str s))
    (ho : ¬ ∃ inner, GoMap.index out K = JVal.obj inner) :
    extractLoop raw K kp vp tp (fuel + 1) i out = (1, Outcome.panicked) := by
  cases hi : GoMap.index out K with
  | obj inner => exact absurd ⟨inner, hi⟩ ho
  | null => simp [extractLoop, h, hi]
  | bool b => simp [extractLoop, h, hi]
  | num n => simp [extractLoop, h, hi]
  | arr xs => simp [extractLoop, h, hi]
  | str t => simp [extractLoop, h, hi]

/-- With a key absent `d` indices ahead and more than `d` units of fuel, the loop ends
(returning or panicking) within `d + 1` key lookups. -/
theorem extractLoop_bound (raw : Request) (K kp vp tp : String) :
    ∀ (d fuel i : Nat) (out : ConvertedRequest),
      GoMap.get raw (sprintf kp (i + d)) = none → d < fuel →
      (extractLoop raw K kp vp tp fuel i out).2 ≠ Outcome.outOfFuel ∧
      (extractLoop raw K kp vp tp fuel i out).1 ≤ d + 1 := by
  intro d
  induction d with
  | zero =>
    intro fuel i out h hf
    obtain ⟨f, rfl⟩ : ∃ f, fuel = f + 1 := ⟨fuel - 1, by omega⟩
    rw [extractLoop_absent raw K kp vp tp f i out (by simpa using h)]
    simp
  | succ d ih =>
    intro fuel i out h hf
    obtain ⟨f, rfl⟩ : ∃ f, fuel = f + 1 := ⟨fuel - 1, by omega⟩
    cases hget : GoMap.get raw (sprintf kp i) with
    | none =>
      rw [extractLoop_absent raw K kp vp tp f i out hget]
      simp
    | some v =>
      by_cases hv : ∃ s, v = JVal.str s
      · obtain ⟨s, rfl⟩ := hv
        have hnext : GoMap.get raw (sprintf kp (i + 1 + d)) = none := by
          rw [← h]; congr 2; omega
        by_cases ho : ∃ inner, GoMap.index out K = JVal.obj inner
        · obtain ⟨inner, hi⟩ := ho
          rw [extractLoop_string raw K kp vp tp f i out s inner hget hi]
          have hrec := ih f (i + 1)
            (GoMap.set out K (JVal.obj (GoMap.set inner s (entryAt raw vp tp i))))
            hnext (by omega)
          exact ⟨hrec.1, by simpa using hrec.2⟩
        · rw [extractLoop_notMap raw K kp vp tp f i out s hget ho]
          simp
      · rw [extractLoop_notString raw K kp vp tp f i out v hget hv]
        simp

/-- More fuel does not change a run that did not run out of fuel. -/
theorem extractLoop_mono (raw : Request) (K kp vp tp : String) :
    ∀ (fuel fuel' i : Nat) (out : ConvertedRequest), fuel ≤ fuel' →
      (extractLoop raw K kp vp tp fuel i out).2 ≠ Outcome.outOfFuel →
      extractLoop raw K kp vp tp fuel' i out = extractLoop raw K kp vp tp fuel i out := by
  intro fuel
  induction fuel with
  | zero =>
    intro fuel' i out _ h
    simp [extractLoop] at h
  | succ f ih =>
    intro fuel' i out hle h
    obtain ⟨f', rfl⟩ : ∃ f', fuel' = f' + 1 := ⟨fuel' - 1, by omega⟩
    cases hget : GoMap.get raw (sprintf kp i) with
    | none =>
      rw [extractLoop_absent raw K kp vp tp f i out hget,
        extractLoop_absent raw K kp vp tp f' i out hget]
    | some v =>
      by_cases hv : ∃ s, v = JVal.str s
      · obtain ⟨s, rfl⟩ := hv
        by_cases ho : ∃ inner, GoMap.index out K = JVal.obj inner
        · obtain ⟨inner, hi⟩ := ho
          rw [extractLoop_string raw K kp vp tp f i out s inner hget hi] at h ⊢
          rw [extractLoop_string raw K kp vp tp f' i out s inner hget hi]
          rw [ih f' (i + 1) _ (by omega) h]
        · rw [extractLoop_notMap raw K kp vp tp f i out s hget ho,
            extractLoop_notMap raw K kp vp tp f' i out s hget ho]
      · rw [extractLoop_notString raw K kp vp tp f i out v hget hv,
          extractLoop_notString raw K kp vp tp f' i out v hget hv]

/-- A string run of length `k` followed by an absent key: the loop returns after `k + 1`
key lookups, having applied the `k` assignments in order. -/
theorem extractLoop_returns (raw : Request) (K kp vp tp : String) :
    ∀ (k fuel i : Nat) (out : ConvertedRequest) (inner : GoMap),
      StringRun raw kp i k → GoMap.get raw (sprintf kp (i + k)) = none →
      GoMap.get out K = some (JVal.obj inner) → k < fuel →
      extractLoop raw K kp vp tp fuel i out =
        (k + 1, Outcome.returned
          (GoMap.set out K (JVal.obj (applyEntries raw kp vp tp i k inner)))) := by
  intro k
  induction k with
  | zero =>
    intro fuel i out inner _ hgap ho hf
    obtain ⟨f, rfl⟩ : ∃ f, fuel = f + 1 := ⟨fuel - 1, by omega⟩
    rw [extractLoop_absent raw K kp vp tp f i out (by simpa using hgap)]
    simp [applyEntries, GoMap.set_of_get out K _ ho]
  | succ k ih =>
    intro fuel i out inner hrun hgap ho hf
    obtain ⟨f, rfl⟩ : ∃ f, fuel = f + 1 := ⟨fuel - 1, by omega⟩
    obtain ⟨s, hs⟩ := hrun i (le_refl i) (by omega)
    have hname : nameAt raw kp i = s := by simp [nameAt, hs]
    rw [extractLoop_string raw K kp vp tp f i out s inner hs (GoMap.index_of_get out K _ ho)]
    have hrun' : StringRun raw kp (i + 1) k := fun j h1 h2 => hrun j (by omega) (by omega)
    have hgap' : GoMap.get raw (sprintf kp (i + 1 + k)) = none := by
      rw [← hgap]; congr 2; omega
    rw [ih f (i + 1) _ (GoMap.set inner s (entryAt raw vp tp i)) hrun' hgap'
      (GoMap.get_set_self out K _) (by omega)]
    simp [applyEntries, hname, GoMap.set_set]

/-- A string run of length `k` followed by a value that is not a string: the loop panics
at its `k + 1`-st key lookup. -/
theorem extractLoop_panics (raw : Request) (K kp vp tp : String) :
    ∀ (k fuel i : Nat) (out : ConvertedRequest) (inner : GoMap) (v : JVal),
      StringRun raw kp i k → GoMap.get raw (sprintf kp (i + k)) = some v →
      (¬ ∃ s, v = JVal.str s) →
      GoMap.get out K = some (JVal.obj inner) → k < fuel →
      extractLoop raw K kp vp tp fuel i out = (k + 1, Outcome.panicked) := by
  intro k
  induction k with
  | zero =>
    intro fuel i out inner v _ hv hns ho hf
    obtain ⟨f, rfl⟩ : ∃ f, fuel = f + 1 := ⟨fuel - 1, by omega⟩
    rw [extractLoop_notString raw K kp vp tp f i out v (by simpa using hv) hns]
  | succ k ih =>
    intro fuel i out inner v hrun hv hns ho hf
    obtain ⟨f, rfl⟩ : ∃ f, fuel = f + 1 := ⟨fuel - 1, by omega⟩
    obtain ⟨s, hs⟩ := hrun i (le_refl i) (by omega)
    rw [extractLoop_string raw K kp vp tp f i out s inner hs (GoMap.index_of_get out K _ ho)]
    have hrun' : StringRun raw kp (i + 1) k := fun j h1 h2 => hrun j (by omega) (by omega)
    have hv' : GoMap.get raw (sprintf kp (i + 1 + k)) = some v := by
      rw [← hv]; congr 2; omega
    rw [ih f (i + 1) _ (GoMap.set inner s (entryAt raw vp tp i)) v hrun' hv' hns
      (GoMap.get_set_self out K _) (by omega)]

/-! ## The assignments of a run -/

/-- Every loop has a stopping index: a string run from index 1 followed, within the first
`size + 1` indices, by a key that is absent or holds a value that is not a string. -/
theorem exists_stop (raw : Request) (kp : String) :
    ∃ n, n ≤ GoMap.size raw ∧ StringRun raw kp 1 n ∧
      ¬ ∃ s, GoMap.get raw (sprintf kp (1 + n)) = some (JVal.str s) := by
  classical
  obtain ⟨g, hg1, hg2, hg⟩ := exists_absent_key raw kp
  have hex : ∃ n, ¬ ∃ s, GoMap.get raw (sprintf kp (1 + n)) = some (JVal.str s) := by
    refine ⟨g - 1, ?_⟩
    have : 1 + (g - 1) = g := by omega
    rw [this, hg]
    simp
  refine ⟨Nat.find hex, ?_, ?_, Nat.find_spec hex⟩
  · have : Nat.find hex ≤ g - 1 := Nat.find_min' hex (by
      have : 1 + (g - 1) = g := by omega
      rw [this, hg]
      simp)
    omega
  · intro j h1 h2
    have hlt : j - 1 < Nat.find hex := by omega
    have := Nat.find_min hex hlt
    have hj : 1 + (j - 1) = j := by omega
    rw [hj] at this
    exact not_not.mp this

/-- The length of the string run before the first absent key is determined by the map. -/
theorem run_unique (raw : Request) (kp : String) (n n' : Nat)
    (hrun : StringRun raw kp 1 n) (hgap : GoMap.get raw (sprintf kp (1 + n)) = none)
    (hrun' : StringRun raw kp 1 n')
    (hstop' : ¬ ∃ s, GoMap.get raw (sprintf kp (1 + n')) = some (JVal.str s)) : n' = n := by
  rcases Nat.lt_trichotomy n' n with h | h | h
  · exact absurd (hrun (1 + n') (by omega) (by omega)) hstop'
  · exact h
  · obtain ⟨s, hs⟩ := hrun' (1 + n) (by omega) (by omega)
    rw [hgap] at hs
    exact absurd hs (by simp)

/-- A string run followed by an absent key is no longer than the map has keys. -/
theorem run_le_size (raw : Request) (kp : String) (n : Nat)
    (hrun : StringRun raw kp 1 n) (hgap : GoMap.get raw (sprintf kp (1 + n)) = none) :
    n ≤ GoMap.size raw := by
  obtain ⟨n', hn', hrun', hstop'⟩ := exists_stop raw kp
  rw [← run_unique raw kp n n' hrun hgap hrun' hstop']
  exact hn'

theorem not_assertionFails_of_run (raw : Request) (kp : String) (n : Nat)
    (hrun : StringRun raw kp 1 n) (hgap : GoMap.get raw (sprintf kp (1 + n)) = none) :
    ¬ AssertionFails raw kp := by
  intro ⟨i, hi, hall, hns⟩
  by_cases h : i ≤ n
  · exact hns (hrun i hi (by omega))
  · exact hall (1 + n) (by omega) (by omega) hgap

theorem assertionFails_of_stop (raw : Request) (kp : String) (n : Nat) (v : JVal)
    (hrun : StringRun raw kp 1 n) (hv : GoMap.get raw (sprintf kp (1 + n)) = some v)
    (hns : ¬ ∃ s, v = JVal.str s) : AssertionFails raw kp := by
  refine ⟨1 + n, by omega, ?_, ?_⟩
  · intro j h1 h2
    by_cases h : j = 1 + n
    · rw [h, hv]; simp
    · obtain ⟨s, hs⟩ := hrun j h1 (by omega)
      rw [hs]; simp
  · intro ⟨s, hs⟩
    rw [hv] at hs
    exact hns ⟨s, by simpa using hs⟩

/-- The two ways a call of `extractTraitsAndAttributes` ends when the output map holds a
map under `K` and the fuel exceeds the number of keys of the input: it panics, exactly when
the type assertion fails, or it returns after the run. -/
theorem extract_cases (raw : Request) (K kp vp tp : String) (out : ConvertedRequest)
    (inner : GoMap) (fuel : Nat) (ho : GoMap.get out K = some (JVal.obj inner))
    (hf : GoMap.size raw < fuel) :
    (AssertionFails raw kp ∧ ∃ c,
        extractTraitsAndAttributes fuel raw out K kp vp tp = (c, Outcome.panicked)) ∨
    (¬ AssertionFails raw kp ∧ ∃ n, StringRun raw kp 1 n ∧
        GoMap.get raw (sprintf kp (1 + n)) = none ∧
        extractTraitsAndAttributes fuel raw out K kp vp tp =
          (n + 1, Outcome.returned
            (GoMap.set out K (JVal.obj (applyEntries raw kp vp tp 1 n inner))))) := by
  obtain ⟨n, hn, hrun, hstop⟩ := exists_stop raw kp
  cases hget : GoMap.get raw (sprintf kp (1 + n)) with
  | none =>
    right
    exact ⟨not_assertionFails_of_run raw kp n hrun hget, n, hrun, hget,
      extractLoop_returns raw K kp vp tp n fuel 1 out inner hrun hget ho (by omega)⟩
  | some v =>
    left
    have hns : ¬ ∃ s, v = JVal.str s := by
      intro ⟨s, hs⟩
      exact hstop ⟨s, by rw [hget, hs]⟩
    exact ⟨assertionFails_of_stop raw kp n v hrun hget hns, n + 1,
      extractLoop_panics raw K kp vp tp n fuel 1 out inner v hrun hget hns ho (by omega)⟩

theorem assertionFailsB_iff (raw : Request) (kp : String) :
    assertionFailsB raw kp = true ↔ AssertionFails raw kp := by
  unfold assertionFailsB
  rcases extract_cases raw "" kp "" "" [("", JVal.obj [])] [] (raw.length + 1) rfl
    (Nat.lt_succ_of_le (GoMap.size_le_length raw)) with ⟨hfail, c, hc⟩ | ⟨hok, n, _, _, hn⟩
  · rw [hc]
    exact ⟨fun _ => hfail, fun _ => rfl⟩
  · rw [hn]
    constructor
    · intro h
      cases h
    · intro h
      exact absurd h hok

/-! ## The two runs of `convertJSON` -/

theorem get_finalOutput_other (raw : Request) (a t : Nat) (k : String)
    (h1 : k ≠ "attributes") (h2 : k ≠ "traits") :
    GoMap.get (finalOutput raw a t) k = GoMap.get (initialOutput raw) k := by
  unfold finalOutput
  rw [GoMap.get_set_ne _ _ _ _ h2, GoMap.get_set_ne _ _ _ _ h1]

/-- The two ways `convertJSON` ends once the fuel exceeds the number of keys of the input:
it panics, exactly when one of the two type assertions fails, or it returns the output map
of the two runs. -/
theorem convertJSONFuel_cases (raw : Request) (fuel : Nat) (hf : GoMap.size raw < fuel) :
    ((AssertionFails raw "atrk" ∨ AssertionFails raw "uatrk") ∧
        convertJSONFuel fuel raw = Outcome.panicked) ∨
    (¬ AssertionFails raw "atrk" ∧ ¬ AssertionFails raw "uatrk" ∧ ∃ a t,
        StringRun raw "atrk" 1 a ∧ GoMap.get raw (sprintf "atrk" (1 + a)) = none ∧
        StringRun raw "uatrk" 1 t ∧ GoMap.get raw (sprintf "uatrk" (1 + t)) = none ∧
        convertJSONFuel fuel raw = Outcome.returned (finalOutput raw a t)) := by
  have ho : GoMap.get (initialOutput raw) "attributes" = some (JVal.obj []) := rfl
  rcases extract_cases raw "attributes" "atrk" "atrv" "atrt" (initialOutput raw) [] fuel ho hf
    with ⟨hfail, c, hc⟩ | ⟨hok, a, hrunA, hgapA, hA⟩
  · left
    refine ⟨Or.inl hfail, ?_⟩
    simp [convertJSONFuel, hc]
  · have ho' : GoMap.get (GoMap.set (initialOutput raw) "attributes"
        (JVal.obj (applyEntries raw "atrk" "atrv" "atrt" 1 a []))) "traits" =
        some (JVal.obj []) := by
      rw [GoMap.get_set_ne _ _ _ _ (by decide)]
      rfl
    rcases extract_cases raw "traits" "uatrk" "uatrv" "uatrt" _ [] fuel ho' hf
      with ⟨hfail, c, hc⟩ | ⟨hok', t, hrunT, hgapT, hT⟩
    · left
      refine ⟨Or.inr hfail, ?_⟩
      simp [convertJSONFuel, hA, hc]
    · right
      refine ⟨hok, hok', a, t, hrunA, hgapA, hrunT, hgapT, ?_⟩
      simp [convertJSONFuel, hA, hT, finalOutput]

theorem convertJSON_cases (raw : Request) :
    ((AssertionFails raw "atrk" ∨ AssertionFails raw "uatrk") ∧
        convertJSON raw = Outcome.panicked) ∨
    (¬ AssertionFails raw "atrk" ∧ ¬ AssertionFails raw "uatrk" ∧ ∃ a t,
        StringRun raw "atrk" 1 a ∧ GoMap.get raw (sprintf "atrk" (1 + a)) = none ∧
        StringRun raw "uatrk" 1 t ∧ GoMap.get raw (sprintf "uatrk" (1 + t)) = none ∧
        convertJSON raw = Outcome.returned (finalOutput raw a t)) :=
  convertJSONFuel_cases raw (raw.length + 1)
    (Nat.lt_succ_of_le (GoMap.size_le_length raw))

/-- Any fuel above the number of keys of the input gives the result of `convertJSON`. -/
theorem convertJSONFuel_stable (raw : Request) (fuel : Nat) (hf : GoMap.size raw < fuel) :
    convertJSONFuel fuel raw = convertJSON raw := by
  rcases convertJSONFuel_cases raw fuel hf with
    ⟨hfail, h⟩ | ⟨hA, hT, a, t, hrA, hgA, hrT, hgT, h⟩
  · rcases convertJSON_cases raw with ⟨_, h'⟩ | ⟨hA, hT, _⟩
    · rw [h, h']
    · rcases hfail with hfail | hfail
      · exact absurd hfail hA
      · exact absurd hfail hT
  · rcases convertJSON_cases raw with ⟨hfail, _⟩ | ⟨_, _, a', t', hrA', hgA', hrT', hgT', h'⟩
    · rcases hfail with hfail | hfail
      · exact absurd hfail hA
      · exact absurd hfail hT
    · have ha : a' = a := run_unique raw "atrk" a a' hrA hgA hrA' (by rw [hgA']; simp)
      have ht : t' = t := run_unique raw "uatrk" t t' hrT hgT hrT' (by rw [hgT']; simp)
      rw [h, h', ha, ht]

theorem get_initialOutput_fixed (raw : Request) (p : String × String)
    (hp : p ∈ fixedFields) :
    p.1 ≠ "attributes" ∧ p.1 ≠ "traits" ∧
      GoMap.get (initialOutput raw) p.1 = some (GoMap.index raw p.2) := by
  simp only [fixedFields, List.mem_cons, List.mem_singleton, List.not_mem_nil, or_false] at hp
  rcases hp with rfl | rfl | rfl | rfl | rfl | rfl | rfl | rfl | rfl <;>
    exact ⟨by decide, by decide, rfl⟩

/-! ## The normaliser: results -/

/-- C1, as stated, fails: the raw event `{"atrk1": 5}` holds none of the nine short keys,
yet `convertJSON` produces no canonical event for it, because the type assertion of line 95
panics on the number. -/
theorem convertJSON_fixed_fields_counterexample :
    (∀ p ∈ fixedFields, GoMap.get [("atrk1", JVal.num 5)] p.2 = none) ∧
    ¬ ∃ out, convertJSON [("atrk1", JVal.num 5)] = Outcome.returned out ∧
      ∀ p ∈ fixedFields, GoMap.get out p.1 = some JVal.null := by
  refine ⟨?_, ?_⟩
  · intro p hp
    simp only [fixedFields, List.mem_cons, List.mem_singleton, List.not_mem_nil, or_false] at hp
    rcases hp with rfl | rfl | rfl | rfl | rfl | rfl | rfl | rfl | rfl <;> rfl
  · intro ⟨out, h, _⟩
    have hp : convertJSON [("atrk1", JVal.num 5)] = Outcome.panicked := rfl
    rw [hp] at h
    cases h

/-- C1, amended: for every raw event on which neither type assertion fails, `convertJSON`
returns a canonical event, and that event maps each of the nine fixed fields to the value of
the raw event under the corresponding short key, and to null when the short key is absent;
so such a raw event with none of the nine short keys yields all nine fixed fields null. -/
theorem convertJSON_fixed_fields (raw : Request)
    (hA : ¬ AssertionFails raw "atrk") (hT : ¬ AssertionFails raw "uatrk") :
    ∃ out, convertJSON raw = Outcome.returned out ∧
      (∀ p ∈ fixedFields, GoMap.get out p.1 = some ((GoMap.get raw p.2).getD JVal.null)) ∧
      (∀ p ∈ fixedFields, GoMap.get raw p.2 = none → GoMap.get out p.1 = some JVal.null) ∧
      ((∀ p ∈ fixedFields, GoMap.get raw p.2 = none) →
        ∀ p ∈ fixedFields, GoMap.get out p.1 = some JVal.null) := by
  rcases convertJSON_cases raw with ⟨hfail, _⟩ | ⟨_, _, a, t, _, _, _, _, h⟩
  · rcases hfail with hfail | hfail
    · exact absurd hfail hA
    · exact absurd hfail hT
  · have hfield : ∀ p ∈ fixedFields,
        GoMap.get (finalOutput raw a t) p.1 = some ((GoMap.get raw p.2).getD JVal.null) := by
      intro p hp
      obtain ⟨h1, h2, h3⟩ := get_initialOutput_fixed raw p hp
      rw [get_finalOutput_other raw a t p.1 h1 h2, h3]
      rfl
    have hnull : ∀ p ∈ fixedFields, GoMap.get raw p.2 = none →
        GoMap.get (finalOutput raw a t) p.1 = some JVal.null := by
      intro p hp hnone
      rw [hfield p hp, hnone]
      rfl
    exact ⟨finalOutput raw a t, h, hfield, hnull, fun hall p hp => hnull p hp (hall p hp)⟩

theorem no_assertionFails_without_first (raw : Request) (kp : String)
    (h : GoMap.get raw (sprintf kp 1) = none) : ¬ AssertionFails raw kp :=
  not_assertionFails_of_run raw kp 0 (fun j h1 h2 => by omega) h

/-- Witness of C1: a raw event with two of the short keys and no indexed key. -/
theorem convertJSON_fixed_fields_witness :
    ¬ AssertionFails [("ev", JVal.str "view"), ("sc", JVal.num 1080)] "atrk" ∧
    ¬ AssertionFails [("ev", JVal.str "view"), ("sc", JVal.num 1080)] "uatrk" ∧
    ∃ out, convertJSON [("ev", JVal.str "view"), ("sc", JVal.num 1080)] =
        Outcome.returned out ∧
      GoMap.get out "event" = some (JVal.str "view") ∧
      GoMap.get out "screen_size" = some (JVal.num 1080) ∧
      GoMap.get out "app_id" = some JVal.null := by
  have hA := no_assertionFails_without_first
    [("ev", JVal.str "view"), ("sc", JVal.num 1080)] "atrk" rfl
  have hT := no_assertionFails_without_first
    [("ev", JVal.str "view"), ("sc", JVal.num 1080)] "uatrk" rfl
  obtain ⟨out, h, hf, hn, _⟩ :=
    convertJSON_fixed_fields [("ev", JVal.str "view"), ("sc", JVal.num 1080)] hA hT
  exact ⟨hA, hT, out, h, hf ("event", "ev") (by simp [fixedFields]),
    hf ("screen_size", "sc") (by simp [fixedFields]),
    hn ("app_id", "id") (by simp [fixedFields]) rfl⟩

/-- C2, as stated, fails: on the raw event `{"atrk1": "a", "atrk2": true}` the call
`convertJSON` panics at the type assertion of line 95 instead of returning. -/
theorem convertJSON_never_fails_counterexample :
    convertJSON [("atrk1", JVal.str "a"), ("atrk2", JVal.bool true)] = Outcome.panicked ∧
    ¬ ∃ out, convertJSON [("atrk1", JVal.str "a"), ("atrk2", JVal.bool true)] =
      Outcome.returned out := by
  have hp : convertJSON [("atrk1", JVal.str "a"), ("atrk2", JVal.bool true)] =
      Outcome.panicked := rfl
  refine ⟨hp, ?_⟩
  intro ⟨out, h⟩
  rw [hp] at h
  cases h

/-- C2, amended: `convertJSON` always terminates (any fuel above the number of keys of the
raw event gives its result, which is never the cut-short outcome), and it returns a
canonical event rather than panicking for every raw event in which neither type assertion
fails, whatever JSON values the raw event holds under all other keys. -/
theorem convertJSON_returns (raw : Request) :
    convertJSON raw ≠ Outcome.outOfFuel ∧
    (∀ fuel, GoMap.size raw < fuel → convertJSONFuel fuel raw = convertJSON raw) ∧
    (¬ AssertionFails raw "atrk" → ¬ AssertionFails raw "uatrk" →
      ∃ out, convertJSON raw = Outcome.returned out) := by
  refine ⟨?_, fun fuel hf => convertJSONFuel_stable raw fuel hf, ?_⟩
  · rcases convertJSON_cases raw with ⟨_, h⟩ | ⟨_, _, a, t, _, _, _, _, h⟩
    · rw [h]; intro hc; cases hc
    · rw [h]; intro hc; cases hc
  · intro hA hT
    rcases convertJSON_cases raw with ⟨hfail, _⟩ | ⟨_, _, a, t, _, _, _, _, h⟩
    · rcases hfail with hfail | hfail
      · exact absurd hfail hA
      · exact absurd hfail hT
    · exact ⟨_, h⟩

/-- Witness of C2: a raw event with values of several JSON types and one trait. -/
theorem convertJSON_returns_witness :
    GoMap.size [("id", JVal.arr [JVal.null]), ("uatrk1", JVal.str "plan"),
        ("uatrv1", JVal.obj [])] < 4 ∧
    convertJSONFuel 4 [("id", JVal.arr [JVal.null]), ("uatrk1", JVal.str "plan"),
        ("uatrv1", JVal.obj [])] =
      convertJSON [("id", JVal.arr [JVal.null]), ("uatrk1", JVal.str "plan"),
        ("uatrv1", JVal.obj [])] ∧
    ∃ out, convertJSON [("id", JVal.arr [JVal.null]), ("uatrk1", JVal.str "plan"),
        ("uatrv1", JVal.obj [])] = Outcome.returned out := by
  have hsize : GoMap.size [("id", JVal.arr [JVal.null]), ("uatrk1", JVal.str "plan"),
      ("uatrv1", JVal.obj [])] < 4 := by decide
  have hA := no_assertionFails_without_first [("id", JVal.arr [JVal.null]),
    ("uatrk1", JVal.str "plan"), ("uatrv1", JVal.obj [])] "atrk" rfl
  have hT := not_assertionFails_of_run [("id", JVal.arr [JVal.null]),
    ("uatrk1", JVal.str "plan"), ("uatrv1", JVal.obj [])] "uatrk" 1
    (fun j h1 h2 => by
      obtain rfl : j = 1 := by omega
      exact ⟨"plan", rfl⟩) rfl
  have h := convertJSON_returns [("id", JVal.arr [JVal.null]), ("uatrk1", JVal.str "plan"),
    ("uatrv1", JVal.obj [])]
  exact ⟨hsize, h.2.1 4 hsize, h.2.2 hA hT⟩

theorem convertJSON_panicked_iff_fails (r : Request) :
    convertJSON r = Outcome.panicked ↔
      AssertionFails r "atrk" ∨ AssertionFails r "uatrk" := by
  constructor
  · intro h
    rcases convertJSON_cases r with ⟨hfail, _⟩ | ⟨_, _, a, t, _, _, _, _, h'⟩
    · exact hfail
    · rw [h'] at h; cases h
  · intro hfail
    rcases convertJSON_cases r with ⟨_, h⟩ | ⟨hA, hT, _⟩
    · exact h
    · rcases hfail with hfail | hfail
      · exact absurd hfail hA
      · exact absurd hfail hT

theorem assertionFails_congr (r r' : Request) (kp : String)
    (hagree : ∀ i, GoMap.get r' (sprintf kp i) = GoMap.get r (sprintf kp i)) :
    AssertionFails r' kp ↔ AssertionFails r kp := by
  unfold AssertionFails
  simp only [hagree]

theorem panics_congr (r r' : Request)
    (h1 : ∀ i, GoMap.get r' (sprintf "atrk" i) = GoMap.get r (sprintf "atrk" i))
    (h2 : ∀ i, GoMap.get r' (sprintf "uatrk" i) = GoMap.get r (sprintf "uatrk" i)) :
    convertJSON r' = Outcome.panicked ↔ convertJSON r = Outcome.panicked := by
  rw [convertJSON_panicked_iff_fails r', convertJSON_panicked_iff_fails r,
    assertionFails_congr r r' "atrk" h1, assertionFails_congr r r' "uatrk" h2]

theorem sprintf_data (p : String) (i : Nat) :
    (sprintf p i).data = p.data ++ (Nat.repr i).data := by
  simp [sprintf, String.data_append]

/-- The keys read by the two type assertions differ from the fixed short keys and from the
value and type keys. -/
theorem indexed_key_ne (k : String)
    (hk : k ∈ fixedFields.map Prod.snd ∨ ∃ i, k = sprintf "atrv" i ∨ k = sprintf "atrt" i ∨
      k = sprintf "uatrv" i ∨ k = sprintf "uatrt" i) (j : Nat) :
    sprintf "atrk" j ≠ k ∧ sprintf "uatrk" j ≠ k := by
  rcases hk with hk | ⟨i, hk | hk | hk | hk⟩
  · simp only [fixedFields, List.map_cons, List.map_nil, List.mem_cons, List.mem_singleton,
      List.not_mem_nil, or_false] at hk
    rcases hk with rfl | rfl | rfl | rfl | rfl | rfl | rfl | rfl | rfl <;>
      constructor <;> intro h <;> have hd := congrArg String.data h <;>
      simp [sprintf_data] at hd
  all_goals
    subst hk
    constructor <;> intro h <;> have hd := congrArg String.data h <;>
      simp [sprintf_data] at hd

theorem atrk_ne_uatrk (i j : Nat) : sprintf "atrk" i ≠ sprintf "uatrk" j := by
  intro h
  have hd := congrArg String.data h
  simp [sprintf_data] at hd

/-- A value stored behind an absent key of the same prefix is never reached. -/
theorem assertionFails_set_beyond_gap (raw : Request) (kp : String) (g j : Nat) (v : JVal)
    (hg1 : 1 ≤ g) (hgj : g < j) (hgap : GoMap.get raw (sprintf kp g) = none) :
    AssertionFails (GoMap.set raw (sprintf kp j) v) kp ↔ AssertionFails raw kp := by
  have hsame : ∀ i, i ≠ j →
      GoMap.get (GoMap.set raw (sprintf kp j) v) (sprintf kp i) =
        GoMap.get raw (sprintf kp i) :=
    fun i hne => GoMap.get_set_ne raw _ _ v (fun hc => hne (sprintf_injective kp i j hc))
  constructor
  · intro ⟨i, hi, hall, hns⟩
    have hlt : i < g := by
      by_contra hge
      exact hall g hg1 (by omega) (by rw [hsame g (by omega)]; exact hgap)
    refine ⟨i, hi, ?_, ?_⟩
    · intro j' h1 h2
      rw [← hsame j' (by omega)]
      exact hall j' h1 h2
    · rw [← hsame i (by omega)]
      exact hns
  · intro ⟨i, hi, hall, hns⟩
    have hlt : i < g := by
      by_contra hge
      exact hall g hg1 (by omega) hgap
    refine ⟨i, hi, ?_, ?_⟩
    · intro j' h1 h2
      rw [hsame j' (by omega)]
      exact hall j' h1 h2
    · rw [hsame i (by omega)]
      exact hns

/-- C10: `convertJSON` panics exactly when, for the prefix `atrk` or for the prefix `uatrk`,
some index `i ≥ 1` has the keys of the indices 1 to `i` all present and a value under the
`i`-th that is not a string.  Hence the outcome depends on the raw event only through its
entries under the keys `atrk i` and `uatrk i`.  In particular storing any value under one
of the nine fixed short keys or under a key `atrv i`, `atrt i`, `uatrv i`, `uatrt i` does
not change whether it panics, and neither does storing any value under `atrk j` or
`uatrk j` when a key of the same prefix with a smaller index `g ≥ 1` is absent.  Two
instances are evaluated: a number under `atrk3` behind the absent `atrk2`, and values that
are not strings under `atrv1`, `atrt1`, `uatrv1`, `uatrt1` and `ev`. -/
theorem convertJSON_panics_iff (raw : Request) :
    (convertJSON raw = Outcome.panicked ↔
      AssertionFails raw "atrk" ∨ AssertionFails raw "uatrk") ∧
    (∀ raw' : Request,
      (∀ i, GoMap.get raw' (sprintf "atrk" i) = GoMap.get raw (sprintf "atrk" i)) →
      (∀ i, GoMap.get raw' (sprintf "uatrk" i) = GoMap.get raw (sprintf "uatrk" i)) →
      (convertJSON raw' = Outcome.panicked ↔ convertJSON raw = Outcome.panicked)) ∧
    (∀ (k : String) (v : JVal),
      (k ∈ fixedFields.map Prod.snd ∨ ∃ i, k = sprintf "atrv" i ∨ k = sprintf "atrt" i ∨
        k = sprintf "uatrv" i ∨ k = sprintf "uatrt" i) →
      (convertJSON (GoMap.set raw k v) = Outcome.panicked ↔
        convertJSON raw = Outcome.panicked)) ∧
    (∀ (g j : Nat) (v : JVal), 1 ≤ g → g < j →
      (GoMap.get raw (sprintf "atrk" g) = none →
        (convertJSON (GoMap.set raw (sprintf "atrk" j) v) = Outcome.panicked ↔
          convertJSON raw = Outcome.panicked)) ∧
      (GoMap.get raw (sprintf "uatrk" g) = none →
        (convertJSON (GoMap.set raw (sprintf "uatrk" j) v) = Outcome.panicked ↔
          convertJSON raw = Outcome.panicked))) ∧
    (∃ out, convertJSON [("atrk1", JVal.str "a"), ("atrk3", JVal.num 5)] =
      Outcome.returned out) ∧
    (∃ out, convertJSON [("atrk1", JVal.str "a"), ("atrv1", JVal.num 5),
        ("atrt1", JVal.arr []), ("uatrv1", JVal.bool false), ("uatrt1", JVal.obj []),
        ("ev", JVal.num 7)] = Outcome.returned out) := by
  refine ⟨convertJSON_panicked_iff_fails raw, fun raw' h1 h2 => panics_congr raw raw' h1 h2,
    ?_, ?_, ⟨_, rfl⟩, ⟨_, rfl⟩⟩
  · intro k v hk
    apply panics_congr
    · intro i
      exact GoMap.get_set_ne raw k _ v (indexed_key_ne k hk i).1
    · intro i
      exact GoMap.get_set_ne raw k _ v (indexed_key_ne k hk i).2
  · intro g j v hg1 hgj
    constructor
    · intro hgap
      rw [convertJSON_panicked_iff_fails, convertJSON_panicked_iff_fails raw,
        assertionFails_set_beyond_gap raw "atrk" g j v hg1 hgj hgap,
        assertionFails_congr raw _ "uatrk"
          (fun i => GoMap.get_set_ne raw _ _ v (fun hc => atrk_ne_uatrk j i hc.symm))]
    · intro hgap
      rw [convertJSON_panicked_iff_fails, convertJSON_panicked_iff_fails raw,
        assertionFails_set_beyond_gap raw "uatrk" g j v hg1 hgj hgap,
        assertionFails_congr raw _ "atrk"
          (fun i => GoMap.get_set_ne raw _ _ v (atrk_ne_uatrk i j))]

/-- Witness of C10: storing a number under `atrv1` and a number under `atrk3`, behind the
absent `atrk2`, leaves the outcome as it was. -/
theorem convertJSON_panics_iff_witness :
    "ev" ∈ fixedFields.map Prod.snd ∧
    (convertJSON (GoMap.set clickEvent "ev" (JVal.num 5)) = Outcome.panicked ↔
      convertJSON clickEvent = Outcome.panicked) ∧
    GoMap.get clickEvent (sprintf "atrk" 2) = none ∧
    (convertJSON (GoMap.set clickEvent (sprintf "atrk" 3) (JVal.num 5)) = Outcome.panicked ↔
      convertJSON clickEvent = Outcome.panicked) :=
  ⟨by decide,
    (convertJSON_panics_iff clickEvent).2.2.1 "ev" (JVal.num 5) (Or.inl (by decide)),
    rfl,
    ((convertJSON_panics_iff clickEvent).2.2.2.1 2 3 (JVal.num 5) (by decide) (by decide)).1
      rfl⟩

theorem stringRun_of_le (raw : Request) (kp : String) (n : Nat)
    (hrun : ∀ i, 1 ≤ i → i ≤ n → ∃ s, GoMap.get raw (sprintf kp i) = some (JVal.str s)) :
    StringRun raw kp 1 n :=
  fun j h1 h2 => hrun j h1 (by omega)

/-- C9: the loop of `extractTraitsAndAttributes` terminates.  The keys `kp i` are pairwise
distinct, so for every raw event, prefix and output map, a fuel above the number `m` of keys
of the raw event is never used up and the loop makes at most `m + 1` key lookups; and when
the keys `kp 1`, ..., `kp n` hold strings, `kp (n + 1)` is absent and the output map holds a
map under `K` (as in both calls of `convertJSON`), the loop returns after exactly `n + 1`
key lookups. -/
theorem extraction_loop_terminates (raw : Request) (K kp vp tp : String)
    (out : ConvertedRequest) (fuel : Nat) (hfuel : GoMap.size raw < fuel) :
    (∀ i j, sprintf kp i = sprintf kp j → i = j) ∧
    (extractTraitsAndAttributes fuel raw out K kp vp tp).2 ≠ Outcome.outOfFuel ∧
    (extractTraitsAndAttributes fuel raw out K kp vp tp).1 ≤ GoMap.size raw + 1 ∧
    (∀ n inner,
      (∀ i, 1 ≤ i → i ≤ n → ∃ s, GoMap.get raw (sprintf kp i) = some (JVal.str s)) →
      GoMap.get raw (sprintf kp (n + 1)) = none →
      GoMap.get out K = some (JVal.obj inner) →
      (extractTraitsAndAttributes fuel raw out K kp vp tp).1 = n + 1 ∧
      ∃ out', (extractTraitsAndAttributes fuel raw out K kp vp tp).2 =
        Outcome.returned out') := by
  refine ⟨sprintf_injective kp, ?_, ?_, ?_⟩
  · obtain ⟨g, hg1, hg2, hg⟩ := exists_absent_key raw kp
    have hg' : GoMap.get raw (sprintf kp (1 + (g - 1))) = none := by
      have : 1 + (g - 1) = g := by omega
      rw [this]; exact hg
    exact (extractLoop_bound raw K kp vp tp (g - 1) fuel 1 out hg' (by omega)).1
  · obtain ⟨g, hg1, hg2, hg⟩ := exists_absent_key raw kp
    have hg' : GoMap.get raw (sprintf kp (1 + (g - 1))) = none := by
      have : 1 + (g - 1) = g := by omega
      rw [this]; exact hg
    have := (extractLoop_bound raw K kp vp tp (g - 1) fuel 1 out hg' (by omega)).2
    unfold extractTraitsAndAttributes
    omega
  · intro n inner hrun hgap hout
    have hr : StringRun raw kp 1 n := stringRun_of_le raw kp n hrun
    have hg : GoMap.get raw (sprintf kp (1 + n)) = none := by rw [Nat.add_comm]; exact hgap
    have hn : n ≤ GoMap.size raw := run_le_size raw kp n hr hg
    unfold extractTraitsAndAttributes
    rw [extractLoop_returns raw K kp vp tp n fuel 1 out inner hr hg hout (by omega)]
    exact ⟨rfl, _, rfl⟩

/-- Witness of C9: on the event with indices 1 and 3 the loop makes two key lookups. -/
theorem extraction_loop_terminates_witness :
    GoMap.size gapEvent < 7 ∧
    (extractTraitsAndAttributes 7 gapEvent (initialOutput gapEvent)
      "attributes" "atrk" "atrv" "atrt").1 = 1 + 1 ∧
    (extractTraitsAndAttributes 7 gapEvent (initialOutput gapEvent)
      "attributes" "atrk" "atrv" "atrt").1 ≤ GoMap.size gapEvent + 1 := by
  have hsize : GoMap.size gapEvent < 7 := by decide
  have h := extraction_loop_terminates gapEvent "attributes" "atrk" "atrv" "atrt"
    (initialOutput gapEvent) 7 hsize
  refine ⟨hsize, (h.2.2.2 1 [] ?_ rfl rfl).1, h.2.2.1⟩
  intro i h1 h2
  obtain rfl : i = 1 := by omega
  exact ⟨"color", rfl⟩

/-! ## The handler -/

/-- C5, as stated, fails: the body `{"uatrk1": true}` parses as a JSON object, yet the
handler puts nothing on the queue and writes no 200 response, because `convertJSON` panics
before the send of line 45. -/
theorem submitHandler_counterexample :
    submitHandler (some [("uatrk1", JVal.bool true)]) (makeChan 5) =
      (makeChan 5, HandlerStatus.panicked) ∧
    (submitHandler (some [("uatrk1", JVal.bool true)]) (makeChan 5)).1.buf = [] :=
  ⟨rfl, rfl⟩

/-- C5, amended: when parsing fails the handler responds 400 with
`{"error": "Invalid request format"}` and leaves the queue as it is.  When parsing succeeds
with raw event `r` and `convertJSON r` returns `c`, the send of line 45 on the open channel
appends exactly `c` to the queue as soon as the queue holds fewer events than its capacity,
and the handler then responds 200 with `{"converted_request": c}`; while the queue is full
the handler is parked at the send, the queue unchanged and no response written.  When
`convertJSON r` panics the queue is left as it is and no response is written. -/
theorem submitHandler_spec (ch : Chan) (r : Request) :
    submitHandler none ch =
      (ch, HandlerStatus.responded
        { status := 400, body := JVal.obj [("error", JVal.str "Invalid request format")] }) ∧
    (∀ c, convertJSON r = Outcome.returned c → ch.closed = false →
      ch.buf.length < ch.cap →
      submitHandler (some r) ch =
        ({ buf := ch.buf ++ [c], cap := ch.cap, closed := ch.closed },
         HandlerStatus.responded
          { status := 200, body := JVal.obj [("converted_request", JVal.obj c)] })) ∧
    (∀ c, convertJSON r = Outcome.returned c → ch.closed = false →
      ch.cap ≤ ch.buf.length →
      submitHandler (some r) ch = (ch, HandlerStatus.blockedOnSend c)) ∧
    (convertJSON r = Outcome.panicked →
      submitHandler (some r) ch = (ch, HandlerStatus.panicked)) := by
  refine ⟨rfl, ?_, ?_, ?_⟩
  · intro c hc hopen hroom
    simp [submitHandler, hc, Chan.send, hopen, hroom]
  · intro c hc hopen hfull
    have hnot : ¬ ch.buf.length < ch.cap := by omega
    simp [submitHandler, hc, Chan.send, hopen, hnot]
  · intro hp
    simp [submitHandler, hp]

/-- Witness of C5: the worked example submitted against the empty queue of `main`. -/
theorem submitHandler_spec_witness :
    (makeChan 5).closed = false ∧ (makeChan 5).buf.length < (makeChan 5).cap ∧
    ∃ c, convertJSON clickEvent = Outcome.returned c ∧
      submitHandler (some clickEvent) (makeChan 5) =
        ({ buf := [c], cap := 5, closed := false },
         HandlerStatus.responded
          { status := 200, body := JVal.obj [("converted_request", JVal.obj c)] }) :=
  ⟨rfl, by decide, _, rfl,
    (submitHandler_spec (makeChan 5) clickEvent).2.1 _ rfl rfl (by decide)⟩

/-! ## The dispatch queue -/

theorem pipelineInv_init : PipelineInv mainInit :=
  ⟨by decide, rfl, rfl, rfl⟩

theorem pipelineInv_step (s : Pipeline) (a : Action) (h : PipelineInv s) :
    PipelineInv (pipelineStep s a) := by
  obtain ⟨hlen, hcap, hopen, hwg⟩ := h
  cases a with
  | enqueue v =>
    by_cases hroom : s.ch.buf.length < s.ch.cap
    · have hstep : pipelineStep s (Action.enqueue v) =
          { s with ch := { s.ch with buf := s.ch.buf ++ [v] } } := by
        simp [pipelineStep, Chan.send, hopen, hroom]
      rw [hstep]
      refine ⟨?_, hcap, hopen, hwg⟩
      simp only [List.length_append, List.length_singleton]
      omega
    · have hstep : pipelineStep s (Action.enqueue v) = s := by
        simp [pipelineStep, Chan.send, hopen, hroom]
      rw [hstep]
      exact ⟨hlen, hcap, hopen, hwg⟩
  | dequeue =>
    cases hb : s.ch.buf with
    | nil =>
      have hstep : pipelineStep s Action.dequeue = s := by
        simp [pipelineStep, Chan.recv, hb, hopen]
      rw [hstep]
      exact ⟨hlen, hcap, hopen, hwg⟩
    | cons v rest =>
      have hstep : pipelineStep s Action.dequeue =
          { s with ch := { s.ch with buf := rest } } := by
        simp [pipelineStep, Chan.recv, hb]
      rw [hstep]
      refine ⟨?_, hcap, hopen, hwg⟩
      rw [hb] at hlen
      simp only [List.length_cons] at hlen
      show rest.length ≤ 5
      omega
  | closeWhenDone =>
    have hstep : pipelineStep s Action.closeWhenDone = s := by
      simp [pipelineStep, hwg]
    rw [hstep]
    exact ⟨hlen, hcap, hopen, hwg⟩

theorem pipelineInv_run (acts : List Action) :
    ∀ s, PipelineInv s → PipelineInv (pipelineRun s acts) := by
  induction acts with
  | nil => intro s h; exact h
  | cons a rest ih =>
    intro s h
    exact ih (pipelineStep s a) (pipelineInv_step s a h)

/-- C6: the dispatch queue is bounded.  After any sequence of handler sends, worker receives
and attempts of the closing goroutine, in any interleaving, the channel made by `main` holds
at most 5 events (and still has capacity 5 and is open); and a send attempted while it holds
5 events is blocked, adding nothing and leaving the queued events as they are. -/
theorem queue_bounded (acts : List Action) :
    (pipelineRun mainInit acts).ch.buf.length ≤ 5 ∧
    (pipelineRun mainInit acts).ch.cap = 5 ∧
    (pipelineRun mainInit acts).ch.closed = false ∧
    (∀ v, (pipelineRun mainInit acts).ch.buf.length = 5 →
      Chan.send (pipelineRun mainInit acts).ch v = SendResult.blocked ∧
      pipelineStep (pipelineRun mainInit acts) (Action.enqueue v) =
        pipelineRun mainInit acts ∧
      (pipelineRun mainInit (acts ++ [Action.enqueue v])).ch.buf =
        (pipelineRun mainInit acts).ch.buf) := by
  obtain ⟨hlen, hcap, hopen, _⟩ := pipelineInv_run acts mainInit pipelineInv_init
  refine ⟨hlen, hcap, hopen, ?_⟩
  intro v hfull
  have hnot : ¬ (pipelineRun mainInit acts).ch.buf.length < (pipelineRun mainInit acts).ch.cap := by
    omega
  have hsend : Chan.send (pipelineRun mainInit acts).ch v = SendResult.blocked := by
    simp [Chan.send, hopen, hnot]
  have hstep : pipelineStep (pipelineRun mainInit acts) (Action.enqueue v) =
      pipelineRun mainInit acts := by
    simp [pipelineStep, hsend]
  refine ⟨hsend, hstep, ?_⟩
  simp only [pipelineRun, List.foldl_append, List.foldl_cons, List.foldl_nil]
  unfold pipelineRun at hstep
  rw [hstep]

/-- Witness of C6: after six sends of the empty event, the sixth found the queue full. -/
theorem queue_bounded_witness :
    (pipelineRun mainInit (List.replicate 5 (Action.enqueue []))).ch.buf.length = 5 ∧
    Chan.send (pipelineRun mainInit (List.replicate 5 (Action.enqueue []))).ch [] =
      SendResult.blocked ∧
    (pipelineRun mainInit (List.replicate 5 (Action.enqueue []) ++ [Action.enqueue []])).ch.buf
      = (pipelineRun mainInit (List.replicate 5 (Action.enqueue []))).ch.buf :=
  ⟨rfl,
    ((queue_bounded (List.replicate 5 (Action.enqueue []))).2.2.2 [] rfl).1,
    ((queue_bounded (List.replicate 5 (Action.enqueue []))).2.2.2 [] rfl).2.2⟩

/-! ## The worker -/

theorem workerStep_not_exited (marshal : ConvertedRequest → Option String)
    (post : Nat → String → PostResult) (s s' : WorkerState)
    (h : workerStep marshal post s = some s') : s'.pc ≠ WorkerPc.exited := by
  unfold workerStep at h
  split at h
  · split at h
    · injection h with h
      subst h
      intro hc
      cases hc
    · cases h
  · injection h with h
    subst h
    intro hc
    cases hc
  · cases h

theorem workerRun_not_exited (marshal : ConvertedRequest → Option String)
    (post : Nat → String → PostResult) :
    ∀ (n : Nat) (s : WorkerState), s.pc ≠ WorkerPc.exited →
      (workerRun marshal post n s).pc ≠ WorkerPc.exited := by
  intro n
  induction n with
  | zero => intro s h; exact h
  | succ n ih =>
    intro s h
    unfold workerRun
    cases hstep : workerStep marshal post s with
    | none => exact h
    | some s' => exact ih s' (workerStep_not_exited marshal post s s' hstep)

theorem workerRun_closed_empty (marshal : ConvertedRequest → Option String)
    (post : Nat → String → PostResult) (cap : Nat) :
    ∀ (k : Nat) (w : World) (calls : List ConvertedRequest),
      (workerRun marshal post (2 * k)
        { pc := WorkerPc.receiving, ch := { buf := [], cap := cap, closed := true },
          world := w, calls := calls }).pc = WorkerPc.receiving ∧
      (workerRun marshal post (2 * k)
        { pc := WorkerPc.receiving, ch := { buf := [], cap := cap, closed := true },
          world := w, calls := calls }).ch = { buf := [], cap := cap, closed := true } ∧
      (workerRun marshal post (2 * k)
        { pc := WorkerPc.receiving, ch := { buf := [], cap := cap, closed := true },
          world := w, calls := calls }).calls = calls ++ List.replicate k [] := by
  intro k
  induction k with
  | zero => intro w calls; simp [workerRun]
  | succ k ih =>
    intro w calls
    have h2 : 2 * (k + 1) = 2 * k + 1 + 1 := by omega
    rw [h2]
    have hrun : workerRun marshal post (2 * k + 1 + 1)
        { pc := WorkerPc.receiving, ch := { buf := [], cap := cap, closed := true },
          world := w, calls := calls } =
        workerRun marshal post (2 * k)
          { pc := WorkerPc.receiving, ch := { buf := [], cap := cap, closed := true },
            world := (sendToWebhook marshal post [] w).2, calls := calls ++ [[]] } := by
      simp [workerRun, workerStep, Chan.recv]
    rw [hrun]
    obtain ⟨h1, h2, h3⟩ := ih (sendToWebhook marshal post [] w).2 (calls ++ [[]])
    refine ⟨h1, h2, ?_⟩
    rw [h3, List.append_assoc]
    rfl

/-- C7, as stated, fails: in the state where the worker stands at its receive and the
channel is closed and empty, the receive yields the zero value at once, the worker calls
`sendToWebhook` on it and is back at its receive; it invokes `sendToWebhook` again and after
no number of steps has it left its loop. -/
theorem worker_terminates_counterexample :
    workerStep constMarshal flakyPost
        { pc := WorkerPc.receiving, ch := { buf := [], cap := 5, closed := true },
          world := { attempts := 0, slept := 0 }, calls := [] } =
      some { pc := WorkerPc.delivering [], ch := { buf := [], cap := 5, closed := true },
             world := { attempts := 0, slept := 0 }, calls := [] } ∧
    (workerRun constMarshal flakyPost 2
        { pc := WorkerPc.receiving, ch := { buf := [], cap := 5, closed := true },
          world := { attempts := 0, slept := 0 }, calls := [] }).calls = [[]] ∧
    (workerRun constMarshal flakyPost 2
        { pc := WorkerPc.receiving, ch := { buf := [], cap := 5, closed := true },
          world := { attempts := 0, slept := 0 }, calls := [] }).pc = WorkerPc.receiving ∧
    ¬ ∃ n, (workerRun constMarshal flakyPost n
        { pc := WorkerPc.receiving, ch := { buf := [], cap := 5, closed := true },
          world := { attempts := 0, slept := 0 }, calls := [] }).pc = WorkerPc.exited := by
  refine ⟨rfl, rfl, rfl, ?_⟩
  intro ⟨n, hn⟩
  exact workerRun_not_exited constMarshal flakyPost n _ (by intro hc; cases hc) hn

/-- C7, amended: a worker loops receive, deliver, receive for as long as the process lives
and has no terminating step.  From a state inside its loop it is still inside its loop
after any number of steps.  At its receive it takes the oldest queued event and goes on to
deliver it; on an empty open channel it is parked; it then calls `sendToWebhook` once on the
event and is back at its receive.  On an empty closed channel its receive yields the zero
value, so that after `2 * k` steps it has made `k` further delivery calls and stands at its
receive again.  In the running process the channel is never closed: after every sequence of
moves it is open and the counter of the wait group is still 5. -/
theorem worker_lifecycle (marshal : ConvertedRequest → Option String)
    (post : Nat → String → PostResult) (s : WorkerState) (n : Nat)
    (hs : s.pc ≠ WorkerPc.exited) :
    (workerRun marshal post n s).pc ≠ WorkerPc.exited ∧
    (∀ req rest, s.pc = WorkerPc.receiving → s.ch.buf = req :: rest →
      workerStep marshal post s =
        some { pc := WorkerPc.delivering req,
               ch := { buf := rest, cap := s.ch.cap, closed := s.ch.closed },
               world := s.world, calls := s.calls }) ∧
    (s.pc = WorkerPc.receiving → s.ch.buf = [] → s.ch.closed = false →
      workerStep marshal post s = none) ∧
    (∀ req, s.pc = WorkerPc.delivering req →
      workerStep marshal post s =
        some { pc := WorkerPc.receiving, ch := s.ch,
               world := (sendToWebhook marshal post req s.world).2,
               calls := s.calls ++ [req] }) ∧
    (s.pc = WorkerPc.receiving → s.ch.buf = [] → s.ch.closed = true →
      workerStep marshal post s =
        some { pc := WorkerPc.delivering [], ch := s.ch, world := s.world,
               calls := s.calls } ∧
      ∀ k, (workerRun marshal post (2 * k) s).pc = WorkerPc.receiving ∧
        (workerRun marshal post (2 * k) s).calls = s.calls ++ List.replicate k []) ∧
    (∀ acts, (pipelineRun mainInit acts).ch.closed = false ∧
      (pipelineRun mainInit acts).wg = 5) := by
  obtain ⟨pc, ch, w, calls⟩ := s
  obtain ⟨buf, cap, closed⟩ := ch
  refine ⟨workerRun_not_exited marshal post n _ hs, ?_, ?_, ?_, ?_, ?_⟩
  · intro req rest hpc hbuf
    simp only at hpc hbuf
    subst hpc
    subst hbuf
    rfl
  · intro hpc hbuf hopen
    simp only at hpc hbuf hopen
    subst hpc
    subst hbuf
    subst hopen
    rfl
  · intro req hpc
    simp only at hpc
    subst hpc
    rfl
  · intro hpc hbuf hclosed
    simp only at hpc hbuf hclosed
    subst hpc
    subst hbuf
    subst hclosed
    refine ⟨rfl, ?_⟩
    intro k
    obtain ⟨h1, _, h3⟩ := workerRun_closed_empty marshal post cap k w calls
    exact ⟨h1, h3⟩
  · intro acts
    obtain ⟨_, _, hopen, hwg⟩ := pipelineInv_run acts mainInit pipelineInv_init
    exact ⟨hopen, hwg⟩

/-- Witness of C7: a worker at its receive with one queued event takes it, delivers it on
the flaky network and is parked at the receive of the emptied open channel. -/
theorem worker_lifecycle_witness :
    WorkerPc.receiving ≠ WorkerPc.exited ∧
    (workerRun constMarshal flakyPost 3
        { pc := WorkerPc.receiving, ch := { buf := [clickEvent], cap := 5, closed := false },
          world := { attempts := 0, slept := 0 }, calls := [] }).pc ≠ WorkerPc.exited ∧
    workerStep constMarshal flakyPost
        { pc := WorkerPc.receiving, ch := { buf := [clickEvent], cap := 5, closed := false },
          world := { attempts := 0, slept := 0 }, calls := [] } =
      some { pc := WorkerPc.delivering clickEvent,
             ch := { buf := [], cap := 5, closed := false },
             world := { attempts := 0, slept := 0 }, calls := [] } ∧
    (workerRun constMarshal flakyPost 3
        { pc := WorkerPc.receiving, ch := { buf := [clickEvent], cap := 5, closed := false },
          world := { attempts := 0, slept := 0 }, calls := [] }).calls = [clickEvent] :=
  ⟨(by intro hc; cases hc),
    (worker_lifecycle constMarshal flakyPost
      { pc := WorkerPc.receiving, ch := { buf := [clickEvent], cap := 5, closed := false },
        world := { attempts := 0, slept := 0 }, calls := [] } 3
      (by intro hc; cases hc)).1,
    (worker_lifecycle constMarshal flakyPost
      { pc := WorkerPc.receiving, ch := { buf := [clickEvent], cap := 5, closed := false },
        world := { attempts := 0, slept := 0 }, calls := [] } 3
      (by intro hc; cases hc)).2.1 clickEvent [] rfl rfl,
    rfl⟩

/-! ## The delivery client -/

/-- C8, as stated, fails: when the first POST fails and a second one would get a 200,
`sendToWebhook` makes one attempt only and ends at the error return of line 121; the worker
then goes back to its receive, the event dropped. -/
theorem sendToWebhook_retry_counterexample :
    flakyPost 0 "payload" = PostResult.err ∧ flakyPost 1 "payload" = PostResult.resp 200 ∧
    sendToWebhook constMarshal flakyPost clickEvent { attempts := 0, slept := 0 } =
      (Delivery.postError, { attempts := 1, slept := 0 }) ∧
    workerStep constMarshal flakyPost
        { pc := WorkerPc.delivering clickEvent, ch := makeChan 5,
          world := { attempts := 0, slept := 0 }, calls := [] } =
      some { pc := WorkerPc.receiving, ch := makeChan 5,
             world := { attempts := 1, slept := 0 }, calls := [clickEvent] } :=
  ⟨rfl, rfl, rfl, rfl⟩

/-- C8, amended: a delivery is a single attempt.  For every canonical event
`sendToWebhook` issues at most one POST.  When that POST fails with a network or timeout
error the delivery ends failed after exactly one attempt, and when it gets a response,
of whatever status, the delivery ends sent after exactly one attempt and a sleep of one
second; when serialising fails no POST is issued.  In each case the worker goes on to its
next receive: no attempt is ever repeated. -/
theorem sendToWebhook_single_attempt (marshal : ConvertedRequest → Option String)
    (post : Nat → String → PostResult) (req : ConvertedRequest) (w : World)
    (ch : Chan) (calls : List ConvertedRequest) :
    (sendToWebhook marshal post req w).2.attempts ≤ w.attempts + 1 ∧
    (∀ body, marshal req = some body → post w.attempts body = PostResult.err →
      sendToWebhook marshal post req w =
        (Delivery.postError, { attempts := w.attempts + 1, slept := w.slept })) ∧
    (∀ body status, marshal req = some body → post w.attempts body = PostResult.resp status →
      sendToWebhook marshal post req w =
        (Delivery.sent status, { attempts := w.attempts + 1, slept := w.slept + 1 })) ∧
    (marshal req = none → sendToWebhook marshal post req w = (Delivery.marshalError, w)) ∧
    workerStep marshal post
        { pc := WorkerPc.delivering req, ch := ch, world := w, calls := calls } =
      some { pc := WorkerPc.receiving, ch := ch,
             world := (sendToWebhook marshal post req w).2, calls := calls ++ [req] } := by
  refine ⟨?_, ?_, ?_, ?_, rfl⟩
  · cases hb : marshal req with
    | none => simp [sendToWebhook, hb]
    | some body =>
      cases hp : post w.attempts body with
      | err => simp [sendToWebhook, hb, hp]
      | resp status => simp [sendToWebhook, hb, hp]
  · intro body hb hp
    simp [sendToWebhook, hb, hp]
  · intro body status hb hp
    simp [sendToWebhook, hb, hp]
  · intro hb
    simp [sendToWebhook, hb]

/-- Witness of C8: the first delivery on the flaky network fails after one attempt. -/
theorem sendToWebhook_single_attempt_witness :
    constMarshal clickEvent = some "payload" ∧ flakyPost 0 "payload" = PostResult.err ∧
    sendToWebhook constMarshal flakyPost clickEvent { attempts := 0, slept := 0 } =
      (Delivery.postError, { attempts := 0 + 1, slept := 0 }) :=
  ⟨rfl, rfl,
    (sendToWebhook_single_attempt constMarshal flakyPost clickEvent
      { attempts := 0, slept := 0 } (makeChan 5) []).2.1 "payload" rfl rfl⟩

end GolangTest
